import Mathlib

/-!
Verification of the multi-subnet DHCP controller module `dhcpd_multi.py`.

The development shallowly embeds the core data structures and handlers of the
source: the `SimpleAddressPool` allocator, `LeaseEntry` liveness records, the
`DHCPServer` protocol handlers (`exec_discover`, `exec_request`,
`exec_release`, `_check_leases`), and the multi-subnet coordinator state
(`subnets`, `mobile_hosts`).  IPv4 addresses and MAC addresses are modelled as
natural numbers; Python dictionaries as association lists; `time.time()` is
passed explicitly as a natural-number clock; Python exceptions are modelled by
an explicit error component, and since the source mutates objects in place,
every handler result carries the state reached at the point of the error.
-/

/-- IPv4 address, as its unsigned 32-bit value. -/
abbrev Addr := Nat

/-- Ethernet hardware address, as an unsigned value. -/
abbrev Mac := Nat

instance {ε α : Type} [DecidableEq ε] [DecidableEq α] : DecidableEq (Except ε α) := fun x y =>
  match x, y with
  | .ok a, .ok b => decidable_of_iff (a = b) (by simp)
  | .error e, .error f => decidable_of_iff (e = f) (by simp)
  | .ok _, .error _ => isFalse (by simp)
  | .error _, .ok _ => isFalse (by simp)

/-- Python exceptions that the modelled code can raise. -/
inductive PyErr where
  | runtimeError (msg : String)
  | indexError
  | attributeError
  | keyError
  | nameError
  | assertionError
deriving DecidableEq, Repr

/-! ### Python dictionaries as association lists

`dget` is `d.get(k)` / `d[k]`, `dset k v` is `d[k] = v`, `ddel` is `del d[k]`
(on a key known present), `ddelPy` is `del d[k]` with the `KeyError` it raises
on a missing key, and `dupd` is in-place value update of an existing key
(keeps the position of the entry, like Python dict assignment). -/

def dget {β : Type} : List (Nat × β) → Nat → Option β
  | [], _ => none
  | kv :: t, k => if kv.1 = k then some kv.2 else dget t k

def ddel {β : Type} : List (Nat × β) → Nat → List (Nat × β)
  | [], _ => []
  | kv :: t, k => if kv.1 = k then ddel t k else kv :: ddel t k

def dset {β : Type} (l : List (Nat × β)) (k : Nat) (v : β) : List (Nat × β) :=
  (k, v) :: ddel l k

def ddelPy {β : Type} (l : List (Nat × β)) (k : Nat) : Except PyErr (List (Nat × β)) :=
  match dget l k with
  | none => .error .keyError
  | some _ => .ok (ddel l k)

def dupd {β : Type} : List (Nat × β) → Nat → β → List (Nat × β)
  | [], _, _ => []
  | kv :: t, k, v => (if kv.1 = k then (k, v) else kv) :: dupd t k v

/-! ### Timeout constants (`timeoutSec` in the source) -/

/-- Model of the leaseInterval entry of `timeoutSec`: 60*60 seconds. -/
def leaseIntervalSec : Nat := 60 * 60

/-- Model of the timerInterval entry of `timeoutSec`: 5 seconds. -/
def timerIntervalSec : Nat := 5

/-! ### `Alive` / `LeaseEntry` -/

/-- A leased IP address with the liveliness data of the `Alive` base class:
`lastTimeSeen` is the clock value at creation or last refresh, `interval` the
liveliness interval. -/
structure LeaseEntry where
  ip : Addr
  lastTimeSeen : Nat
  interval : Nat
deriving DecidableEq, Repr

/-- Model of `LeaseEntry(ip)`: records the current time and the default interval. -/
def LeaseEntry.make (ip : Addr) (now : Nat) : LeaseEntry :=
  ⟨ip, now, leaseIntervalSec⟩

/-- Model of `Alive.expired`: `time.time() > self.lastTimeSeen + self.interval`. -/
def LeaseEntry.expired (l : LeaseEntry) (now : Nat) : Bool :=
  now > l.lastTimeSeen + l.interval

/-- Model of `Alive.refresh`: `self.lastTimeSeen = time.time()`. -/
def LeaseEntry.refresh (l : LeaseEntry) (now : Nat) : LeaseEntry :=
  { l with lastTimeSeen := now }

/-! ### `SimpleAddressPool` -/

/-- Model of `SimpleAddressPool`: a subnet-based pool.  `network` is the network base
address (host bits zero, as guaranteed by `parse_cidr`), `network_size` the
prefix length, `first`/`last` the usable host-offset range, and `removed` the
set of currently withdrawn addresses (`self.removed`). -/
structure SimpleAddressPool where
  network : Addr
  network_size : Nat
  first : Nat
  last : Nat
  removed : Finset Addr
deriving DecidableEq

/-- Model of `self.host_size = 32 - network_size`. -/
def SimpleAddressPool.host_size (p : SimpleAddressPool) : Nat :=
  32 - p.network_size

/-- The host mask `(1 << self.host_size) - 1` used by `__contains__`. -/
def SimpleAddressPool.hostMask (p : SimpleAddressPool) : Nat :=
  2 ^ p.host_size - 1

/-- Model of `self.count = self.last - self.first + 1` (a Python int, so modelled in
`Int`; it is nonpositive exactly for an empty or inverted range). -/
def SimpleAddressPool.count (p : SimpleAddressPool) : Int :=
  (p.last : Int) - (p.first : Int) + 1

/-- Model of `self.count` as a natural number, for valid pools (`first ≤ last`). -/
def SimpleAddressPool.countN (p : SimpleAddressPool) : Nat :=
  p.last + 1 - p.first

/-- The checks of `__contains__` that do not involve `self.removed`:
the address decodes to this network, its host offset is in `[first, last]`
and is not the all-ones broadcast offset. -/
def SimpleAddressPool.inRangeB (p : SimpleAddressPool) (item : Addr) : Bool :=
  if ((item &&& p.hostMask) ||| p.network) ≠ item then false
  else if item &&& p.hostMask = p.hostMask then false
  else if item &&& p.hostMask < p.first then false
  else if item &&& p.hostMask > p.last then false
  else true

/-- Model of `__contains__`: `item in self.removed` is checked first, then the range
checks of `inRangeB` in source order. -/
def SimpleAddressPool.contains (p : SimpleAddressPool) (item : Addr) : Bool :=
  if item ∈ p.removed then false else p.inRangeB item

/-- Model of `append` (restore): raises unless the item was previously withdrawn; the
source distinguishes the two error messages by a membership test. -/
def SimpleAddressPool.append (p : SimpleAddressPool) (item : Addr) :
    Except PyErr SimpleAddressPool :=
  if item ∈ p.removed then .ok { p with removed := p.removed.erase item }
  else if p.contains item then .error (.runtimeError ("already in this pool"))
  else .error (.runtimeError ("does not belong in this pool"))

/-- Model of `remove` (withdraw): raises unless the item is currently contained. -/
def SimpleAddressPool.remove (p : SimpleAddressPool) (item : Addr) :
    Except PyErr SimpleAddressPool :=
  if p.contains item then .ok { p with removed := insert item p.removed }
  else .error (.runtimeError ("not in this pool"))

/-- Model of `__len__`: `(last - first + 1) - len(removed)`, a Python int. -/
def SimpleAddressPool.pyLen (p : SimpleAddressPool) : Int :=
  p.count - (p.removed.card : Int)

/-- One step of the cyclic cursor of `__getitem__`:
`c += 1; if c > self.last: c -= self.count`. -/
def SimpleAddressPool.next (p : SimpleAddressPool) (c : Nat) : Nat :=
  if c + 1 > p.last then c + 1 - p.countN else c + 1

/-- The `while c > self.last: c -= self.count` loop of `__getitem__`, with
explicit fuel (the Python loop is unbounded; for a valid pool the fuel used
below is sufficient, see `wrapDown_spec`). -/
def SimpleAddressPool.wrapDown (p : SimpleAddressPool) : Nat → Nat → Nat
  | 0, c => c
  | f + 1, c => if c > p.last then p.wrapDown f (c - p.countN) else c

/-- The start cursor of `__getitem__`: `c = self.first + len(self.removed)`
wrapped down into range. -/
def SimpleAddressPool.wrapStart (p : SimpleAddressPool) : Nat :=
  p.wrapDown (p.first + p.removed.card) (p.first + p.removed.card)

/-- The unbounded `while True` scan of `__getitem__`, with explicit fuel.
Each iteration forms `addr = IPAddr(c | network)`; if `addr` is not removed,
the source asserts `addr in self` and returns it once `index` many available
addresses have been skipped.  Fuel exhaustion models nontermination of the
Python loop (unreachable on a valid pool with `index < len(self)`). -/
def SimpleAddressPool.scanAux (p : SimpleAddressPool) :
    Nat → Nat → Nat → Except PyErr Addr
  | 0, _, _ => .error (.runtimeError ("loop fuel"))
  | f + 1, c, index =>
    let addr := c ||| p.network
    if addr ∉ p.removed then
      if p.contains addr = false then .error .assertionError
      else if index = 0 then .ok addr
      else p.scanAux f (p.next c) (index - 1)
    else p.scanAux f (p.next c) index

/-- The cursor positions visited by `n` iterations of the scan loop of
`__getitem__` starting at `c`. -/
def SimpleAddressPool.cells (p : SimpleAddressPool) : Nat → Nat → List Nat
  | 0, _ => []
  | f + 1, c => c :: p.cells f (p.next c)

/-- Model of `__getitem__(index)` for a natural-number index (the source separately
rejects negative indices): `IndexError` when `index >= len(self)`, otherwise
the cyclic scan starting at `wrapStart`.  One period of the scan suffices for
a valid pool (`getitem_spec`). -/
def SimpleAddressPool.getitem (p : SimpleAddressPool) (index : Nat) :
    Except PyErr Addr :=
  if (index : Int) ≥ p.pyLen then .error .indexError
  else p.scanAux p.countN p.wrapStart index

/-- The `last` host offset that `__init__` derives from its arguments:
the whole host space when neither `last` nor `count` is given, else the
explicit `last`, else `first + count - 1`.  (In the source the final
`else: raise` branch for both-given is unreachable: `last` wins.) -/
def SimpleAddressPool.mkLast (network_size first : Nat)
    (lastArg countArg : Option Nat) : Nat :=
  match lastArg, countArg with
  | none, none => 2 ^ (32 - network_size) - 2
  | some l, _ => l
  | none, some c => first + c - 1

/-- Model of `SimpleAddressPool.__init__` after `parse_cidr`: builds the pool with an
empty `removed` set and performs the four validation checks in source order.
`host_size < 0 or host_size > 32` reduces to `network_size > 32` for a
natural-number prefix length. -/
def SimpleAddressPool.init (network : Addr) (network_size : Nat) (first : Nat)
    (lastArg countArg : Option Nat) : Except PyErr SimpleAddressPool :=
  let last := mkLast network_size first lastArg countArg
  let p : SimpleAddressPool := ⟨network, network_size, first, last, ∅⟩
  if p.count ≤ 0 then .error (.runtimeError ("Bad first/last range"))
  else if first = 0 then .error (.runtimeError ("cannot allocate 0th address"))
  else if 32 < network_size then .error (.runtimeError ("Bad network"))
  else if p.contains (last ||| network) = false then
    .error (.runtimeError ("Bad first/last range"))
  else .ok p

/-- Well-formedness of a pool, as established by `init` (see `init_valid`)
and preserved by `remove`/`append`: nonempty range of host offsets below the
broadcast offset, host bits of `network` zero, and every withdrawn address
in range. -/
def SimpleAddressPool.Valid (p : SimpleAddressPool) : Prop :=
  1 ≤ p.first ∧ p.first ≤ p.last ∧ p.last < p.hostMask ∧
    p.network &&& p.hostMask = 0 ∧ ∀ a ∈ p.removed, p.inRangeB a = true

instance (p : SimpleAddressPool) : Decidable p.Valid := by
  unfold SimpleAddressPool.Valid; infer_instance

/-! ### DHCP messages, replies and lease events -/

/-- The fields of a parsed inbound DHCP message that the handlers read:
`chaddr`, `ciaddr`, and the requested-IP option when present. -/
structure DhcpMsg where
  chaddr : Mac
  ciaddr : Addr
  requestedIp : Option Addr
deriving DecidableEq, Repr

/-- The protocol replies the handlers construct (`exec_discover` sends an
OFFER with `yiaddr`, `exec_request` an ACK with `yiaddr`, `nak` a NAK). -/
inductive Reply where
  | offerMsg (yiaddr : Addr)
  | ackMsg (yiaddr : Addr)
  | nakMsg
deriving DecidableEq, Repr

/-- The `DHCPLease` event raised to external observers: client identity,
leased address, attachment point when known, and the `renew`/`expire` flag. -/
structure LeaseEv where
  host_mac : Mac
  ip : Addr
  port : Option Nat
  dpid : Option Nat
  renew : Bool
  expire : Bool
deriving DecidableEq, Repr

/-- The dynamic value passed as `ip_entry` to `DHCPLease.__init__`: either a
`LeaseEntry` (which has an `.ip` attribute) or a bare `IPAddr` (which does
not). -/
inductive IpEntry where
  | entry (l : LeaseEntry)
  | addr (a : Addr)

/-- Model of `DHCPLease.__init__`: reads `ip_entry.ip` (an `AttributeError` when
`ip_entry` is a bare address), then asserts that exactly one of
`renew`/`expire` is set. -/
def mkDHCPLease (host_mac : Mac) (ip_entry : IpEntry) (port dpid : Option Nat)
    (renew expire : Bool) : Except PyErr LeaseEv :=
  match ip_entry with
  | .addr _ => .error .attributeError
  | .entry l =>
    if (cond renew 1 0) + (cond expire 1 0) = 1 then
      .ok ⟨host_mac, l.ip, port, dpid, renew, expire⟩
    else .error .assertionError

/-! ### Server and coordinator state -/

/-- The per-subnet `DHCPServer` state used by the handlers: its pool, its own
IP address, and the `offers` (Eth -> IP) and `leases` (Eth -> LeaseEntry)
dictionaries. -/
structure ServerState where
  pool : SimpleAddressPool
  ip_addr : Addr
  offers : List (Mac × Addr)
  leases : List (Mac × LeaseEntry)
deriving DecidableEq

/-- The `DHCPD` coordinator state shared by all subnet servers: the
`subnets` dictionary (num -> DHCPServer) and the `mobile_hosts` table
(MAC -> IP). -/
structure NetState where
  subnets : List (Nat × ServerState)
  mobile_hosts : List (Mac × Addr)
deriving DecidableEq

def getSub (net : NetState) (sid : Nat) : Option ServerState :=
  dget net.subnets sid

def updSub (net : NetState) (sid : Nat) (srv : ServerState) : NetState :=
  { net with subnets := dupd net.subnets sid srv }

/-- The state-relevant part of `DHCPServer.__init__`: empty `offers` and
`leases`, and the own IP of the server withdrawn from the pool when the pool
contains it.  (`remove` cannot fail there since `contains` was just checked;
the error arm is unreachable.) -/
def DHCPServer.init (ip_address : Addr) (pool : SimpleAddressPool) : ServerState :=
  if pool.contains ip_address then
    match pool.remove ip_address with
    | .ok p2 => ⟨p2, ip_address, [], []⟩
    | .error _ => ⟨pool, ip_address, [], []⟩
  else ⟨pool, ip_address, [], []⟩

/-- The result of one handler invocation: the state it leaves behind (also on
error, since the source mutates in place), the replies sent, the `DHCPLease`
events raised, and the exception propagated out of the handler, if any. -/
structure StepOut where
  net : NetState
  replies : List Reply
  events : List LeaseEv
  error : Option PyErr
deriving DecidableEq

/-! ### `exec_discover` -/

/-- Model of `exec_discover(event, p, pool)`.  A client with a lease is re-offered the
same address (the entry moves from `leases` to `offers`); a client with a
pending offer is re-offered it; otherwise the first available address of the pool
(or the requested one, when available) is withdrawn and offered; an empty
pool yields NAK. -/
def exec_discover (sid : Nat) (src : Mac) (p : DhcpMsg) (net : NetState) : StepOut :=
  match getSub net sid with
  | none => ⟨net, [], [], some .keyError⟩
  | some srv =>
    match dget srv.leases src with
    | some le =>
      let srv2 := { srv with leases := ddel srv.leases src,
                             offers := dset srv.offers src le.ip }
      ⟨updSub net sid srv2, [.offerMsg le.ip], [], none⟩
    | none =>
      match dget srv.offers src with
      | some off => ⟨net, [.offerMsg off], [], none⟩
      | none =>
        if srv.pool.pyLen = 0 then ⟨net, [.nakMsg], [], none⟩
        else
          match srv.pool.getitem 0 with
          | .error e => ⟨net, [], [], some e⟩
          | .ok fstAvail =>
            let offer :=
              match p.requestedIp with
              | some wanted => if srv.pool.contains wanted then wanted else fstAvail
              | none => fstAvail
            match srv.pool.remove offer with
            | .error e => ⟨net, [], [], some e⟩
            | .ok pl =>
              let srv2 := { srv with pool := pl, offers := dset srv.offers src offer }
              ⟨updSub net sid srv2, [.offerMsg offer], [], none⟩

/-! ### `exec_release` -/

/-- Model of `exec_release(event, p, pool)`: silently ignored unless the link-layer
source matches `chaddr` and the address of the recorded lease matches `ciaddr`;
on success the lease is deleted, the address restored, and any mobile-host
entry for the client cleared. -/
def exec_release (sid : Nat) (src : Mac) (p : DhcpMsg) (net : NetState) : StepOut :=
  match getSub net sid with
  | none => ⟨net, [], [], some .keyError⟩
  | some srv =>
    if src ≠ p.chaddr then ⟨net, [], [], none⟩
    else
      match dget srv.leases p.chaddr with
      | none => ⟨net, [], [], none⟩
      | some le =>
        if le.ip ≠ p.ciaddr then ⟨net, [], [], none⟩
        else
          let srv2 := { srv with leases := ddel srv.leases p.chaddr }
          match srv2.pool.append p.ciaddr with
          | .error e => ⟨updSub net sid srv2, [], [], some e⟩
          | .ok pl =>
            let net2 := updSub net sid { srv2 with pool := pl }
            ⟨{ net2 with mobile_hosts := ddel net2.mobile_hosts src }, [], [], none⟩

/-! ### `_check_leases` -/

/-- The body of the `for client in self.leases.keys()` loop of
`_check_leases`, over the snapshot of keys.  For an expired lease the address
is restored, then `DHCPLease(client, lease.ip, expire=True)` is constructed —
which raises `AttributeError`, because `lease.ip` is a bare `IPAddr` without
an `.ip` attribute; the remaining bookkeeping (raise event, delete lease,
`self.nak(event)` on veto — a `NameError`, `event` is not in scope there —
and mobile-table cleanup) is mirrored from the source but unreachable. -/
def check_leases_go (sid : Nat) (now : Nat) (nakFn : LeaseEv → Bool) :
    List Mac → NetState → StepOut
  | [], net => ⟨net, [], [], none⟩
  | client :: rest, net =>
    match getSub net sid with
    | none => ⟨net, [], [], some .keyError⟩
    | some srv =>
      match dget srv.leases client with
      | none => ⟨net, [], [], some .keyError⟩
      | some lease =>
        if lease.expired now then
          match srv.pool.append lease.ip with
          | .error e => ⟨net, [], [], some e⟩
          | .ok pl =>
            let net1 := updSub net sid { srv with pool := pl }
            match mkDHCPLease client (.addr lease.ip) none none false true with
            | .error e => ⟨net1, [], [], some e⟩
            | .ok ev =>
              let net2 := updSub net1 sid
                { srv with pool := pl, leases := ddel srv.leases client }
              if nakFn ev then ⟨net2, [], [ev], some .nameError⟩
              else
                let net3 := { net2 with mobile_hosts := ddel net2.mobile_hosts client }
                let r := check_leases_go sid now nakFn rest net3
                ⟨r.net, r.replies, ev :: r.events, r.error⟩
        else check_leases_go sid now nakFn rest net

/-- Model of `_check_leases` on one subnet server: sweep the snapshot of lease keys. -/
def check_leases (sid : Nat) (now : Nat) (nakFn : LeaseEv → Bool) (net : NetState) :
    StepOut :=
  match getSub net sid with
  | none => ⟨net, [], [], some .keyError⟩
  | some srv => check_leases_go sid now nakFn (srv.leases.map (fun kv => kv.1)) net

/-! ### `exec_request` -/

/-- Intermediate result of the sequential stages of `exec_request`: either an
exception with the state reached, or the updated state plus `got_ip`. -/
inductive StageRes where
  | err (net : NetState) (e : PyErr)
  | cont (net : NetState) (got : Option LeaseEntry)

/-- The `# renew` block: a client with a lease for a different address has it
released (and its mobile marking dropped); a matching address is refreshed.
`isMobile` is the `is_mobile` flag read once at the top of `exec_request`. -/
def reqRenew (sid src : Nat) (wanted now : Nat) (isMobile : Bool) (net : NetState) :
    StageRes :=
  match getSub net sid with
  | none => .err net .keyError
  | some srv =>
    match dget srv.leases src with
    | none => .cont net none
    | some le =>
      if wanted ≠ le.ip then
        match (if isMobile then ddelPy net.mobile_hosts src else .ok net.mobile_hosts) with
        | .error e => .err net e
        | .ok mh =>
          let net1 := { net with mobile_hosts := mh }
          match srv.pool.append le.ip with
          | .error e => .err net1 e
          | .ok pl =>
            .cont (updSub net1 sid { srv with pool := pl, leases := ddel srv.leases src })
              none
      else
        let le2 := le.refresh now
        .cont (updSub net sid { srv with leases := dset srv.leases src le2 }) (some le2)

/-- The `# respond to offer` block: a pending offer for a different address
is released back; a matching one is promoted to a fresh `LeaseEntry`; the
offer entry is deleted in both cases. -/
def reqOffer (sid src : Nat) (wanted now : Nat) (net : NetState) : StageRes :=
  match getSub net sid with
  | none => .err net .keyError
  | some srv =>
    match dget srv.offers src with
    | none => .cont net none
    | some off =>
      if wanted ≠ off then
        match srv.pool.append off with
        | .error e => .err net e
        | .ok pl =>
          .cont (updSub net sid { srv with pool := pl, offers := ddel srv.offers src })
            none
      else
        .cont (updSub net sid { srv with offers := ddel srv.offers src })
          (some (LeaseEntry.make off now))

/-- The `# new host request` block: a requested address that is available is
withdrawn and becomes a fresh lease; a stale `is_mobile` flag leads to
`del self.server.mobile_hosts[src]`, a `KeyError` when the renew block
already dropped the entry. -/
def reqFresh (sid src : Nat) (wanted now : Nat) (isMobile : Bool) (net : NetState) :
    StageRes :=
  match getSub net sid with
  | none => .err net .keyError
  | some srv =>
    if srv.pool.contains wanted then
      match srv.pool.remove wanted with
      | .error e => .err net e
      | .ok pl =>
        let net1 := updSub net sid { srv with pool := pl }
        match (if isMobile then ddelPy net1.mobile_hosts src else .ok net1.mobile_hosts) with
        | .error e => .err net1 e
        | .ok mh =>
          .cont { net1 with mobile_hosts := mh } (some (LeaseEntry.make wanted now))
    else .cont net none

/-- Chains a stage behind `got_ip`: each later block of `exec_request` runs
only under `if got_ip is None`. -/
def stageIf (got : Option LeaseEntry) (net : NetState) (k : NetState → StageRes) :
    StageRes :=
  match got with
  | some g => .cont net (some g)
  | none => k net

/-- The `# new mobile host found` search: the first other subnet holding a
lease for `src` on the wanted address; on a hit the client is recorded in
`mobile_hosts` and the request is delegated there. -/
def reqNewMobile (sid src : Nat) (wanted : Nat) (net : NetState) :
    Option (Nat × NetState) :=
  match (net.subnets.filter (fun ks => decide (ks.1 ≠ sid))).find?
      (fun ks =>
        match dget ks.2.leases src with
        | some le => decide (le.ip = wanted)
        | none => false) with
  | some ks =>
    some (ks.1, { net with mobile_hosts := dset net.mobile_hosts src wanted })
  | none => none

/-- Model of `exec_request(event, p, pool)`.  Returns immediately when the message has
no requested-IP option; otherwise runs the renew / offer / fresh blocks, then
the mobile-host resolution (which delegates to the `exec_request` of
`exec_request` — the explicit fuel bounds that recursion), and finally either
NAKs or commits `got_ip` as the lease of the client, raises the `DHCPLease`
event, and ACKs unless the observer vetoed it.  The commit happens before
the veto check, exactly as in the source. -/
def exec_request : Nat → (LeaseEv → Bool) → Nat → Mac → Nat → Nat → DhcpMsg →
    Nat → NetState → StepOut
  | 0, _, _, _, _, _, _, _, net => ⟨net, [], [], some (.runtimeError ("recursion"))⟩
  | fuel + 1, nakFn, sid, src, port, dpid, p, now, net =>
    match p.requestedIp with
    | none => ⟨net, [], [], none⟩
    | some wanted =>
      let isMobile := (dget net.mobile_hosts src).isSome
      match reqRenew sid src wanted now isMobile net with
      | .err n e => ⟨n, [], [], some e⟩
      | .cont n1 g1 =>
        match stageIf g1 n1 (reqOffer sid src wanted now) with
        | .err n e => ⟨n, [], [], some e⟩
        | .cont n2 g2 =>
          match stageIf g2 n2 (reqFresh sid src wanted now isMobile) with
          | .err n e => ⟨n, [], [], some e⟩
          | .cont n3 g3 =>
            match g3 with
            | none =>
              match dget n3.mobile_hosts src with
              | some mip =>
                if mip = wanted then
                  match n3.subnets.filter
                      (fun ks => (dget ks.2.leases src).isSome) with
                  | [] => ⟨n3, [], [], some .indexError⟩
                  | [c] => exec_request fuel nakFn c.1 src port dpid p now n3
                  | _ => ⟨n3, [], [], some (.runtimeError ("found on multiple servers"))⟩
                else
                  match reqNewMobile sid src wanted n3 with
                  | some (tid, n4) => exec_request fuel nakFn tid src port dpid p now n4
                  | none => ⟨n3, [.nakMsg], [], none⟩
              | none =>
                match reqNewMobile sid src wanted n3 with
                | some (tid, n4) => exec_request fuel nakFn tid src port dpid p now n4
                | none => ⟨n3, [.nakMsg], [], none⟩
            | some got =>
              if got.ip ≠ wanted then ⟨n3, [], [], some .assertionError⟩
              else
                match getSub n3 sid with
                | none => ⟨n3, [], [], some .keyError⟩
                | some srv3 =>
                  let n4 := updSub n3 sid
                    { srv3 with leases := dset srv3.leases src got }
                  match mkDHCPLease src (.entry got) (some port) (some dpid) true false with
                  | .error e => ⟨n4, [], [], some e⟩
                  | .ok ev =>
                    if nakFn ev then ⟨n4, [.nakMsg], [ev], none⟩
                    else ⟨n4, [.ackMsg wanted], [ev], none⟩

/-! ### Event sequences -/

/-- One inbound event handled by the system: a protocol message dispatched to
one subnet server, or one expiry-sweep tick of the lease timer of a server.  The
`nakFn` component is the veto decision of the external observer for each raised
`DHCPLease` event; `fuel` bounds the roaming delegation recursion. -/
inductive NetEvent where
  | discover (sid src : Nat) (p : DhcpMsg)
  | request (fuel : Nat) (nakFn : LeaseEv → Bool) (sid src port dpid : Nat)
      (p : DhcpMsg) (now : Nat)
  | release (sid src : Nat) (p : DhcpMsg)
  | sweep (sid : Nat) (now : Nat) (nakFn : LeaseEv → Bool)

/-- Dispatch one event to its handler. -/
def step : NetEvent → NetState → StepOut
  | .discover sid src p, net => exec_discover sid src p net
  | .request fuel nakFn sid src port dpid p now, net =>
    exec_request fuel nakFn sid src port dpid p now net
  | .release sid src p, net => exec_release sid src p net
  | .sweep sid now nakFn, net => check_leases sid now nakFn net

/-- The state after handling a sequence of events. -/
def run (es : List NetEvent) (net : NetState) : NetState :=
  es.foldl (fun n e => (step e n).net) net

/-! ### A concrete run of the system

A subnet `192.168.0.0/24` with usable offsets `100..101` (so two addresses,
`192.168.0.100 = 3232235620` and `192.168.0.101 = 3232235621`), server
address `192.168.0.254 = 3232235774`.  Client `10` DISCOVERs and REQUESTs
`192.168.0.100`, then client `11` DISCOVERs and REQUESTs `192.168.0.101`. -/

def demoPool : SimpleAddressPool := ⟨3232235520, 24, 100, 101, ∅⟩

def demoSrv : ServerState := DHCPServer.init 3232235774 demoPool

def demoNet0 : NetState := ⟨[(1, demoSrv)], []⟩

def demoNet1 : NetState := (exec_discover 1 10 ⟨10, 0, none⟩ demoNet0).net

def demoNet2 : NetState :=
  (exec_request 1 (fun _ => false) 1 10 7 5 ⟨10, 0, some 3232235620⟩ 0 demoNet1).net

def demoNet3 : NetState := (exec_discover 1 11 ⟨11, 0, none⟩ demoNet2).net

def demoNet4 : NetState :=
  (exec_request 1 (fun _ => false) 1 11 7 5 ⟨11, 0, some 3232235621⟩ 0 demoNet3).net

/-- The expiry sweep over `demoNet2` at a clock value past the lease
interval, so the lease of client `10` satisfies `expired()`. -/
def demoExpSweep : StepOut := check_leases 1 10000 (fun _ => false) demoNet2

/-- The state of the subnet server after the crashed sweep. -/
def demoSweepSrv : Option ServerState := getSub demoExpSweep.net 1

/-- The REQUEST of client `10` confirming its offer in `demoNet1`, with the
external observer vetoing the `DHCPLease` event (`nak()`). -/
def demoVetoReq : StepOut :=
  exec_request 1 (fun _ => true) 1 10 7 5 ⟨10, 0, some 3232235620⟩ 0 demoNet1

/-- Client `10` re-DISCOVERing on `demoNet4`, whose pool is exhausted. -/
def demoReDiscover : StepOut := exec_discover 1 10 ⟨10, 0, none⟩ demoNet4

def cw6Srv : ServerState := ⟨⟨3232235520, 24, 1, 1, {3232235521}⟩, 3232235774, [], []⟩

def cw6Net : NetState := ⟨[(1, cw6Srv)], []⟩

def demoSrvLeased : ServerState :=
  ⟨⟨3232235520, 24, 100, 101, {3232235620}⟩, 3232235774, [],
    [(10, LeaseEntry.make 3232235620 0)]⟩

def roamSrvB : ServerState := ⟨⟨3232235776, 24, 100, 101, ∅⟩, 3232236030, [], []⟩

def roamNet : NetState := ⟨[(1, demoSrvLeased), (2, roamSrvB)], [(10, 3232235620)]⟩

def nthDemoPool : SimpleAddressPool := ⟨3232235520, 24, 1, 5, ∅⟩

/-! ### Arithmetic of the `__getitem__` scan -/

lemma nat_and_lor_right (a b m : Nat) : (a ||| b) &&& m = (a &&& m) ||| (b &&& m) := by
  apply Nat.eq_of_testBit_eq
  intro i
  simp [Nat.testBit_land, Nat.testBit_lor, Bool.and_or_distrib_right]

lemma nat_and_mask_of_lt {c k : Nat} (h : c < 2 ^ k) : c &&& (2 ^ k - 1) = c := by
  rw [Nat.and_pow_two_sub_one_eq_mod, Nat.mod_eq_of_lt h]

namespace SimpleAddressPool

variable (p : SimpleAddressPool)

lemma countN_pos (hv : p.Valid) : 1 ≤ p.countN := by
  have h := hv.2.1
  unfold countN
  omega

lemma countN_eq (hv : p.Valid) : (p.countN : Int) = (p.last : Int) - p.first + 1 := by
  have h := hv.2.1
  unfold countN
  omega

lemma cell_and_mask (hv : p.Valid) {c : Nat} (hc : c ≤ p.last) :
    (c ||| p.network) &&& p.hostMask = c := by
  have hlt : c < 2 ^ p.host_size := by
    have h1 : p.last < p.hostMask := hv.2.2.1
    have h2 : p.hostMask = 2 ^ p.host_size - 1 := rfl
    have h3 : 0 < 2 ^ p.host_size := Nat.pos_pow_of_pos _ (by omega)
    omega
  rw [nat_and_lor_right, hv.2.2.2.1]
  show (c &&& (2 ^ p.host_size - 1)) ||| 0 = c
  rw [nat_and_mask_of_lt hlt]
  simp

lemma cell_inj (hv : p.Valid) {c d : Nat} (hc : c ≤ p.last) (hd : d ≤ p.last)
    (h : c ||| p.network = d ||| p.network) : c = d := by
  have h1 := cell_and_mask p hv hc
  have h2 := cell_and_mask p hv hd
  rw [← h1, ← h2, h]

lemma inRangeB_cell (hv : p.Valid) {c : Nat} (h1 : p.first ≤ c) (h2 : c ≤ p.last) :
    p.inRangeB (c ||| p.network) = true := by
  have hm := cell_and_mask p hv h2
  have hmask : c ≠ p.hostMask := by
    have := hv.2.2.1
    omega
  unfold inRangeB
  rw [hm]
  rw [if_neg (show ¬ (c ||| p.network ≠ c ||| p.network) by simp), if_neg hmask,
    if_neg (show ¬ c < p.first by omega), if_neg (show ¬ c > p.last by omega)]

lemma contains_cell (hv : p.Valid) {c : Nat} (h1 : p.first ≤ c) (h2 : c ≤ p.last)
    (h3 : (c ||| p.network) ∉ p.removed) : p.contains (c ||| p.network) = true := by
  simp only [contains, if_neg h3]
  exact inRangeB_cell p hv h1 h2

lemma inRangeB_elim {a : Addr} (h : p.inRangeB a = true) :
    p.first ≤ a &&& p.hostMask ∧ a &&& p.hostMask ≤ p.last ∧
      (a &&& p.hostMask) ||| p.network = a := by
  unfold inRangeB at h
  split_ifs at h with g1 g2 g3 g4
  any_goals simp at h
  push_neg at g1
  exact ⟨le_of_not_lt g3, le_of_not_lt g4, g1⟩

lemma wrapDown_spec (hcN : 1 ≤ p.countN) :
    ∀ f c, p.first ≤ c → c ≤ p.last + f →
      p.wrapDown f c = p.first + ((c - p.first) % p.countN) := by
  intro f
  induction f with
  | zero =>
    intro c h1 h2
    have h3 : c - p.first < p.countN := by unfold countN at *; omega
    rw [wrapDown, Nat.mod_eq_of_lt h3]
    omega
  | succ f ih =>
    intro c h1 h2
    rw [wrapDown]
    by_cases h : c > p.last
    · rw [if_pos h]
      have hcn : p.countN = p.last + 1 - p.first := rfl
      have hge : p.first + p.countN ≤ c := by omega
      rw [ih (c - p.countN) (by omega) (by omega)]
      have hsub : c - p.countN - p.first = c - p.first - p.countN := by omega
      rw [hsub, ← Nat.mod_eq_sub_mod (by omega)]
    · rw [if_neg h]
      push_neg at h
      have h3 : c - p.first < p.countN := by unfold countN at *; omega
      rw [Nat.mod_eq_of_lt h3]
      omega

lemma wrapStart_spec (hv : p.Valid) :
    p.wrapStart = p.first + (p.removed.card % p.countN) ∧
      p.first ≤ p.wrapStart ∧ p.wrapStart ≤ p.last := by
  have hcN := countN_pos p hv
  have h := wrapDown_spec p hcN (p.first + p.removed.card) (p.first + p.removed.card)
    (by omega) (by unfold countN at *; omega)
  rw [wrapStart, h, Nat.add_sub_cancel_left]
  have hm : p.removed.card % p.countN < p.countN := Nat.mod_lt _ (by omega)
  have hcn : p.countN = p.last + 1 - p.first := rfl
  have hfl := hv.2.1
  exact ⟨rfl, by omega, by omega⟩

lemma next_spec (hv : p.Valid) {c : Nat} (h1 : p.first ≤ c) (h2 : c ≤ p.last) :
    p.first ≤ p.next c ∧ p.next c ≤ p.last ∧
      p.next c = p.first + ((c + 1 - p.first) % p.countN) := by
  have hcN := countN_pos p hv
  have hcn : p.countN = p.last + 1 - p.first := rfl
  unfold next
  by_cases h : c + 1 > p.last
  · rw [if_pos h]
    have hc : c = p.last := by omega
    subst hc
    have hmod : p.last + 1 - p.first = p.countN := by omega
    rw [hmod, Nat.mod_self]
    refine ⟨by omega, by omega, by omega⟩
  · rw [if_neg h]
    push_neg at h
    have h3 : c + 1 - p.first < p.countN := by omega
    rw [Nat.mod_eq_of_lt h3]
    refine ⟨by omega, by omega, by omega⟩

end SimpleAddressPool

namespace SimpleAddressPool

variable (p : SimpleAddressPool)

lemma cells_formula (hv : p.Valid) :
    ∀ n c, p.first ≤ c → c ≤ p.last →
      p.cells n c =
        (List.range n).map (fun i => p.first + ((c - p.first + i) % p.countN)) := by
  intro n
  induction n with
  | zero => intro c h1 h2; rfl
  | succ n ih =>
    intro c h1 h2
    have hcN := countN_pos p hv
    obtain ⟨hn1, hn2, hn3⟩ := next_spec p hv h1 h2
    have hfun : (fun i => p.first + ((p.next c - p.first + i) % p.countN)) =
        (fun i => p.first + ((c - p.first + (i + 1)) % p.countN)) := by
      funext i
      rw [hn3, Nat.add_sub_cancel_left, Nat.mod_add_mod]
      have he : c + 1 - p.first + i = c - p.first + (i + 1) := by omega
      rw [he]
    rw [cells, ih _ hn1 hn2, hfun, List.range_succ_eq_map, List.map_cons, List.map_map]
    have hhead : p.first + ((c - p.first + 0) % p.countN) = c := by
      have hlt : c - p.first < p.countN := by unfold countN at *; omega
      rw [Nat.add_zero, Nat.mod_eq_of_lt hlt]
      omega
    rw [hhead]
    congr 1

lemma cells_length (hv : p.Valid) {start : Nat} (h1 : p.first ≤ start)
    (h2 : start ≤ p.last) : (p.cells p.countN start).length = p.countN := by
  rw [cells_formula p hv _ _ h1 h2]
  simp

lemma cells_nodup (hv : p.Valid) {start : Nat} (h1 : p.first ≤ start)
    (h2 : start ≤ p.last) : (p.cells p.countN start).Nodup := by
  have hcN := countN_pos p hv
  rw [cells_formula p hv _ _ h1 h2]
  apply List.Nodup.map_on ?_ (List.nodup_range _)
  intro i hi j hj hij
  rw [List.mem_range] at hi hj
  have h3 : (start - p.first + i) % p.countN = (start - p.first + j) % p.countN := by
    omega
  have h4 : Nat.ModEq p.countN i j :=
    Nat.ModEq.add_left_cancel' (start - p.first) h3
  have h5 : i % p.countN = j % p.countN := h4
  rw [Nat.mod_eq_of_lt hi, Nat.mod_eq_of_lt hj] at h5
  exact h5

lemma cells_mem (hv : p.Valid) {start : Nat} (h1 : p.first ≤ start)
    (h2 : start ≤ p.last) {x : Nat} (hx : x ∈ p.cells p.countN start) :
    p.first ≤ x ∧ x ≤ p.last := by
  have hcN := countN_pos p hv
  rw [cells_formula p hv _ _ h1 h2] at hx
  simp only [List.mem_map, List.mem_range] at hx
  obtain ⟨i, _, rfl⟩ := hx
  have hm : (start - p.first + i) % p.countN < p.countN := Nat.mod_lt _ (by omega)
  have hcn : p.countN = p.last + 1 - p.first := rfl
  have hfl := hv.2.1
  omega

lemma cells_toFinset (hv : p.Valid) {start : Nat} (h1 : p.first ≤ start)
    (h2 : start ≤ p.last) :
    (p.cells p.countN start).toFinset = Finset.Icc p.first p.last := by
  apply Finset.eq_of_subset_of_card_le
  · intro x hx
    rw [List.mem_toFinset] at hx
    rw [Finset.mem_Icc]
    exact cells_mem p hv h1 h2 hx
  · rw [List.toFinset_card_of_nodup (cells_nodup p hv h1 h2),
      cells_length p hv h1 h2, Nat.card_Icc]
    have hcn : p.countN = p.last + 1 - p.first := rfl
    omega

lemma card_removed_filter (hv : p.Valid) :
    ((Finset.Icc p.first p.last).filter
        (fun c => (c ||| p.network) ∈ p.removed)).card = p.removed.card := by
  apply Finset.card_nbij' (fun c => c ||| p.network) (fun a => a &&& p.hostMask)
  · intro c hc
    rw [Finset.mem_filter] at hc
    exact hc.2
  · intro a ha
    have hr := hv.2.2.2.2 a ha
    obtain ⟨g1, g2, g3⟩ := inRangeB_elim p hr
    rw [Finset.mem_filter, Finset.mem_Icc, g3]
    exact ⟨⟨g1, g2⟩, ha⟩
  · intro c hc
    rw [Finset.mem_filter, Finset.mem_Icc] at hc
    exact cell_and_mask p hv hc.1.2
  · intro a ha
    have hr := hv.2.2.2.2 a ha
    obtain ⟨_, _, g3⟩ := inRangeB_elim p hr
    exact g3

lemma card_removed_le (hv : p.Valid) : p.removed.card ≤ p.countN := by
  have h1 := card_removed_filter p hv
  have h2 := Finset.card_filter_le (Finset.Icc p.first p.last)
    (fun c => (c ||| p.network) ∈ p.removed)
  rw [h1, Nat.card_Icc] at h2
  have hcn : p.countN = p.last + 1 - p.first := rfl
  omega

lemma avail_length (hv : p.Valid) :
    ((p.cells p.countN p.wrapStart).filter
        (fun x => decide ((x ||| p.network) ∉ p.removed))).length =
      p.countN - p.removed.card := by
  obtain ⟨_, hw1, hw2⟩ := wrapStart_spec p hv
  have hnd := cells_nodup p hv hw1 hw2
  have hnd2 := hnd.filter (fun x => decide ((x ||| p.network) ∉ p.removed))
  rw [← List.toFinset_card_of_nodup hnd2, List.toFinset_filter,
    cells_toFinset p hv hw1 hw2]
  have hflt : (Finset.Icc p.first p.last).filter
        (fun a => decide ((a ||| p.network) ∉ p.removed) = true) =
      (Finset.Icc p.first p.last).filter
        (fun a => (a ||| p.network) ∉ p.removed) := by
    apply Finset.filter_congr
    intro x _
    simp
  rw [hflt]
  have hkey : p.removed.card + ((Finset.Icc p.first p.last).filter
        (fun a => (a ||| p.network) ∉ p.removed)).card = p.last + 1 - p.first := by
    have hsplit : ((Finset.Icc p.first p.last).filter
          (fun c => (c ||| p.network) ∈ p.removed)).card +
        ((Finset.Icc p.first p.last).filter
          (fun c => ¬ (c ||| p.network) ∈ p.removed)).card =
        (Finset.Icc p.first p.last).card :=
      Finset.filter_card_add_filter_neg_card_eq_card _
    rw [card_removed_filter p hv, Nat.card_Icc] at hsplit
    exact hsplit
  have hcn : p.countN = p.last + 1 - p.first := rfl
  have hle := card_removed_le p hv
  omega

lemma scanAux_ok_contains :
    ∀ n c idx a, p.scanAux n c idx = .ok a → p.contains a = true := by
  intro n
  induction n with
  | zero =>
    intro c idx a h
    simp [scanAux] at h
  | succ n ih =>
    intro c idx a h
    rw [scanAux] at h
    by_cases h1 : (c ||| p.network) ∉ p.removed
    · rw [if_pos h1] at h
      by_cases h2 : p.contains (c ||| p.network) = false
      · rw [if_pos h2] at h
        simp at h
      · rw [if_neg h2] at h
        by_cases h3 : idx = 0
        · rw [if_pos h3] at h
          have ha : c ||| p.network = a := by
            simpa using h
          rw [← ha]
          simpa using h2
        · rw [if_neg h3] at h
          exact ih _ _ _ h
    · rw [if_neg h1] at h
      exact ih _ _ _ h

lemma scanAux_eq (hv : p.Valid) :
    ∀ n c idx, p.first ≤ c → c ≤ p.last →
      p.scanAux n c idx =
        (match ((p.cells n c).filter
            (fun x => decide ((x ||| p.network) ∉ p.removed)))[idx]? with
          | some x => .ok (x ||| p.network)
          | none => .error (.runtimeError ("loop fuel"))) := by
  intro n
  induction n with
  | zero =>
    intro c idx h1 h2
    simp [scanAux, cells]
  | succ n ih =>
    intro c idx h1 h2
    obtain ⟨hn1, hn2, _⟩ := next_spec p hv h1 h2
    rw [scanAux, cells]
    by_cases hmem : (c ||| p.network) ∉ p.removed
    · rw [if_pos hmem]
      have hcont := contains_cell p hv h1 h2 hmem
      rw [hcont]
      rw [if_neg (show ¬ (true = false) by simp)]
      rw [List.filter_cons_of_pos (by simpa using hmem)]
      by_cases hidx : idx = 0
      · subst hidx
        rw [if_pos rfl]
        simp
      · rw [if_neg hidx]
        rw [ih (p.next c) (idx - 1) hn1 hn2]
        obtain ⟨m, rfl⟩ := Nat.exists_eq_succ_of_ne_zero hidx
        simp [List.getElem?_cons_succ]
    · rw [if_neg hmem]
      rw [List.filter_cons_of_neg (by simpa using hmem)]
      exact ih (p.next c) idx hn1 hn2

end SimpleAddressPool

/-- A subnet server never has its own IP address in an offer, in a lease, or
available in its pool. -/
def srvSafe (srv : ServerState) : Prop :=
  (∀ m a, dget srv.offers m = some a → a ≠ srv.ip_addr) ∧
  (∀ m le, dget srv.leases m = some le → le.ip ≠ srv.ip_addr) ∧
  srv.pool.contains srv.ip_addr = false

/-- Every subnet server of the coordinator state is `srvSafe`. -/
def OwnSafe (net : NetState) : Prop :=
  ∀ sid srv, getSub net sid = some srv → srvSafe srv

/-- The two states expose the same servers with the same own addresses. -/
def sameIps (net net2 : NetState) : Prop :=
  ∀ k, (getSub net2 k).map ServerState.ip_addr =
    (getSub net k).map ServerState.ip_addr

/-- What a request stage guarantees: on an exception the state reached is
still `OwnSafe`; on continuation the state is `OwnSafe`, exposes the same
servers with the same own addresses, and any produced `got_ip` entry does not
carry the own address of the handling server. -/
def stageOK (net : NetState) (sid : Nat) : StageRes → Prop
  | .err n _ => OwnSafe n
  | .cont n g => OwnSafe n ∧ sameIps net n ∧
      ∀ le, g = some le → ∀ srv, getSub net sid = some srv → le.ip ≠ srv.ip_addr

def c10Events : List NetEvent :=
  [.discover 1 10 ⟨10, 0, none⟩,
   .request 1 (fun _ => false) 1 10 7 5 ⟨10, 0, some 3232235620⟩ 0,
   .sweep 1 10000 (fun _ => false),
   .release 1 10 ⟨10, 3232235620, none⟩]

/-! ### Dictionary lemmas -/

lemma demoPool_init :
    SimpleAddressPool.init 3232235520 24 100 (some 101) none = .ok demoPool := by decide

lemma dget_ddel_self {β : Type} (l : List (Nat × β)) (k : Nat) :
    dget (ddel l k) k = none := by
  induction l with
  | nil => rfl
  | cons kv t ih =>
    by_cases h : kv.1 = k <;> simp [ddel, dget, h, ih]

lemma dget_ddel_ne {β : Type} (l : List (Nat × β)) {k k' : Nat} (h : k' ≠ k) :
    dget (ddel l k) k' = dget l k' := by
  induction l with
  | nil => rfl
  | cons kv t ih =>
    by_cases h1 : kv.1 = k
    · have h2 : ¬ kv.1 = k' := by rw [h1]; exact fun hh => h hh.symm
      simp only [ddel, if_pos h1, ih, dget, if_neg h2]
    · simp only [ddel, if_neg h1, dget, ih]

lemma dget_dset_self {β : Type} (l : List (Nat × β)) (k : Nat) (v : β) :
    dget (dset l k v) k = some v := by
  simp [dset, dget]

lemma dget_dset_ne {β : Type} (l : List (Nat × β)) {k k' : Nat} (h : k' ≠ k) (v : β) :
    dget (dset l k v) k' = dget l k' := by
  have h2 : k ≠ k' := fun hh => h hh.symm
  simp [dset, dget, h2, dget_ddel_ne l h]

lemma ddel_ddel {β : Type} (l : List (Nat × β)) (k : Nat) :
    ddel (ddel l k) k = ddel l k := by
  induction l with
  | nil => rfl
  | cons kv t ih =>
    by_cases h : kv.1 = k <;> simp [ddel, h, ih]

lemma dset_dset {β : Type} (l : List (Nat × β)) (k : Nat) (v w : β) :
    dset (dset l k v) k w = dset l k w := by
  simp [dset, ddel, ddel_ddel]

lemma dget_dupd_self {β : Type} (l : List (Nat × β)) (k : Nat) (v : β) :
    dget (dupd l k v) k = (dget l k).map (fun _ => v) := by
  induction l with
  | nil => rfl
  | cons kv t ih =>
    by_cases h : kv.1 = k
    · simp only [dupd, if_pos h, dget, if_pos rfl, if_pos h, Option.map_some', if_true]
    · simp only [dupd, if_neg h, dget, if_neg h, ih]

lemma dget_dupd_ne {β : Type} (l : List (Nat × β)) {k k' : Nat} (h : k' ≠ k) (v : β) :
    dget (dupd l k v) k' = dget l k' := by
  induction l with
  | nil => rfl
  | cons kv t ih =>
    by_cases h1 : kv.1 = k
    · have h2 : ¬ k = k' := fun hh => h hh.symm
      have h3 : ¬ kv.1 = k' := by rw [h1]; exact h2
      simp only [dupd, if_pos h1, dget, if_neg h2, if_neg h3, ih]
    · simp only [dupd, if_neg h1, dget, ih]

lemma dupd_dupd {β : Type} (l : List (Nat × β)) (k : Nat) (v w : β) :
    dupd (dupd l k v) k w = dupd l k w := by
  induction l with
  | nil => rfl
  | cons kv t ih =>
    by_cases h : kv.1 = k
    · simp only [dupd, if_pos h, if_pos rfl, ih, if_true]
    · simp only [dupd, if_neg h, ih]

lemma getSub_updSub_self (net : NetState) (sid : Nat) (srv : ServerState) :
    getSub (updSub net sid srv) sid = (getSub net sid).map (fun _ => srv) := by
  simp [getSub, updSub, dget_dupd_self]

lemma getSub_updSub_ne (net : NetState) {sid k : Nat} (h : k ≠ sid)
    (srv : ServerState) : getSub (updSub net sid srv) k = getSub net k := by
  simp [getSub, updSub, dget_dupd_ne _ h]

lemma updSub_updSub (net : NetState) (sid : Nat) (a b : ServerState) :
    updSub (updSub net sid a) sid b = updSub net sid b := by
  simp [updSub, dupd_dupd]

lemma updSub_mobile (net : NetState) (sid : Nat) (srv : ServerState) :
    (updSub net sid srv).mobile_hosts = net.mobile_hosts := rfl

/-! ### The renewal path of `exec_request` -/

/-- When the requesting client holds a lease for exactly the wanted address,
`exec_request` refreshes the lease, commits it back, raises the renew event,
and ACKs (or NAKs without rollback, when the observer vetoes). -/
lemma exec_request_renewal (fuel : Nat) (nakFn : LeaseEv → Bool)
    (sid src port dpid now : Nat) (p : DhcpMsg) (net : NetState)
    (srv : ServerState) (le : LeaseEntry)
    (hs : getSub net sid = some srv)
    (hl : dget srv.leases src = some le)
    (hw : p.requestedIp = some le.ip) :
    exec_request (fuel + 1) nakFn sid src port dpid p now net =
      ⟨updSub net sid { srv with leases := dset srv.leases src (le.refresh now) },
        (if nakFn ⟨src, le.ip, some port, some dpid, true, false⟩ then [.nakMsg]
          else [.ackMsg le.ip]),
        [⟨src, le.ip, some port, some dpid, true, false⟩], none⟩ := by
  have hs2 : dget net.subnets sid = some srv := hs
  have h1 : reqRenew sid src le.ip now ((dget net.mobile_hosts src).isSome) net =
      .cont (updSub net sid { srv with leases := dset srv.leases src (le.refresh now) })
        (some (le.refresh now)) := by
    simp [reqRenew, getSub, hs2, hl]
  have hip : (le.refresh now).ip = le.ip := rfl
  simp only [exec_request, hw, h1, stageIf]
  rw [getSub_updSub_self, hs]
  by_cases hb : nakFn ⟨src, le.ip, some port, some dpid, true, false⟩ = true <;>
    simp [mkDHCPLease, LeaseEntry.refresh, dset_dset, updSub_updSub, hb]

/-! ### Claim theorems (part 1) -/

/-- C1.  The no-double-allocation invariant FAILS on the code: after the
reachable sequence DISCOVER, REQUEST (client `10` leases `192.168.0.100`),
one expiry-sweep tick restores the address to the pool
(`contains` becomes true) but crashes with `AttributeError` while
constructing `DHCPLease(client, lease.ip, expire=True)` — `lease.ip` is a
bare `IPAddr` with no `.ip` attribute — so the lease entry survives: the
address is simultaneously available in the pool and recorded in `leases`,
and is no longer in the withdrawn set. -/
theorem c1_sweep_breaks_no_double_allocation :
    (demoSweepSrv.map (fun srv => srv.pool.contains 3232235620)) = some true ∧
    (demoSweepSrv.map (fun srv => dget srv.leases 10)) =
      some (some (LeaseEntry.make 3232235620 0)) ∧
    (demoSweepSrv.map (fun srv => srv.pool.removed)) = some ∅ ∧
    demoExpSweep.error = some .attributeError := by decide

/-- C2.  The expiry sweep does NOT perform the claimed bookkeeping: on a
lease whose `expired()` holds it restores the address but then raises
`AttributeError` constructing the `DHCPLease` event, so no notification is
emitted, no reply is sent, and the lease entry is not removed. -/
theorem c2_expiry_sweep_crashes_before_bookkeeping :
    demoExpSweep.error = some .attributeError ∧
    demoExpSweep.events = [] ∧
    demoExpSweep.replies = [] ∧
    (demoSweepSrv.map (fun srv => (dget srv.leases 10).isSome)) = some true ∧
    (demoSweepSrv.map (fun srv => srv.pool.pyLen)) = some 2 := by decide

/-- C3.  A vetoed REQUEST replies NAK but the lease IS committed and the
address does NOT remain available: `self.leases[src] = got_ip` executes
before the veto check and is never rolled back, contradicting the claim (and
the `DHCPLease` docstring, `Call nak() to abort this lease`). -/
theorem c3_veto_commits_lease_anyway :
    demoVetoReq.replies = [.nakMsg] ∧
    ((getSub demoVetoReq.net 1).map (fun srv => dget srv.leases 10)) =
      some (some (LeaseEntry.make 3232235620 0)) ∧
    ((getSub demoVetoReq.net 1).map (fun srv => srv.pool.contains 3232235620)) =
      some false ∧
    demoVetoReq.error = none := by decide

/-- C6 counterexample.  A DISCOVER on an exhausted pool (`size() == 0`) from
a client that already holds a lease is answered with an OFFER, not a NAK,
and mutates the state (the lease entry moves to `offers`), refuting
"whatever the prior state of the client". -/
theorem c6_counterexample_rediscover_on_empty_pool :
    ((getSub demoNet4 1).map (fun srv => srv.pool.pyLen)) = some 0 ∧
    demoReDiscover.replies = [.offerMsg 3232235620] ∧
    demoReDiscover.replies ≠ [.nakMsg] ∧
    ((getSub demoReDiscover.net 1).map (fun srv => dget srv.offers 10)) =
      some (some 3232235620) ∧
    ((getSub demoReDiscover.net 1).map (fun srv => (dget srv.leases 10).isSome)) =
      some false ∧
    demoReDiscover.net ≠ demoNet4 := by decide

/-- C6 (amended).  For a client with no existing lease and no pending offer,
a DISCOVER handled while the `size()` of the pool equals 0 yields exactly one NAK
and mutates no state. -/
theorem c6_amended_exhaustion_naks_fresh_clients (sid src : Nat) (p : DhcpMsg)
    (net : NetState) (srv : ServerState) (hs : getSub net sid = some srv)
    (hl : dget srv.leases src = none) (ho : dget srv.offers src = none)
    (hz : srv.pool.pyLen = 0) :
    exec_discover sid src p net = ⟨net, [.nakMsg], [], none⟩ := by
  simp [exec_discover, hs, hl, ho, hz]

/-- Witness for C6 (amended) on a concrete exhausted one-address pool. -/
theorem c6_amended_witness :
    exec_discover 1 12 ⟨12, 0, none⟩ cw6Net = ⟨cw6Net, [.nakMsg], [], none⟩ :=
  c6_amended_exhaustion_naks_fresh_clients 1 12 ⟨12, 0, none⟩ cw6Net cw6Srv
    (by decide) (by decide) (by decide) (by decide)

/-- C8.  Pool construction fails exactly when the derived count
`last - first + 1` is not positive, or `first` is 0, or the host-offset
width is inconsistent with the prefix (`network_size > 32`), or the `last`
combined address of the last offset is not `contains`-valid; in particular `first = 1`,
`last = 0` fails. -/
theorem c8_pool_construction_validation :
    (∀ (network network_size first : Nat) (lastArg countArg : Option Nat),
      (∃ e, SimpleAddressPool.init network network_size first lastArg countArg =
          .error e) ↔
        ((⟨network, network_size, first,
            SimpleAddressPool.mkLast network_size first lastArg countArg, ∅⟩ :
            SimpleAddressPool).count ≤ 0 ∨
          first = 0 ∨ 32 < network_size ∨
          (⟨network, network_size, first,
            SimpleAddressPool.mkLast network_size first lastArg countArg, ∅⟩ :
            SimpleAddressPool).contains
            (SimpleAddressPool.mkLast network_size first lastArg countArg |||
              network) = false)) ∧
    (∃ e, SimpleAddressPool.init 3232235520 24 1 (some 0) none = .error e) := by
  constructor
  · intro network network_size first lastArg countArg
    unfold SimpleAddressPool.init
    dsimp only
    split_ifs with h1 h2 h3 h4 <;> simp_all
  · exact ⟨.runtimeError ("Bad first/last range"), by decide⟩

/-- C9.  A REQUEST without the requested-IP option is silently ignored: no
reply is sent, no event is raised, no exception occurs, and the state is
returned unchanged. -/
theorem c9_request_without_requested_ip_ignored (fuel : Nat)
    (nakFn : LeaseEv → Bool) (sid src port dpid now : Nat) (p : DhcpMsg)
    (net : NetState) (h : p.requestedIp = none) :
    exec_request (fuel + 1) nakFn sid src port dpid p now net =
      ⟨net, [], [], none⟩ := by
  simp [exec_request, h]

/-- Witness for C9 at a concrete message and state. -/
theorem c9_witness :
    exec_request 1 (fun _ => false) 1 10 7 5 ⟨10, 0, none⟩ 0 demoNet0 =
      ⟨demoNet0, [], [], none⟩ :=
  c9_request_without_requested_ip_ignored 0 (fun _ => false) 1 10 7 5 0
    ⟨10, 0, none⟩ demoNet0 rfl

/-- C4.  A REQUEST for the address the client currently leases refreshes the
lease (last-seen reset to `now`, same address), leaves the pool, the offers
map, the lease of every other client, every other subnet, and the mobile table
unchanged, and replies ACK (given that the observer does not veto). -/
theorem c4_renewal_stability (fuel : Nat) (nakFn : LeaseEv → Bool)
    (sid src port dpid now : Nat) (p : DhcpMsg) (net : NetState)
    (srv : ServerState) (le : LeaseEntry)
    (hs : getSub net sid = some srv)
    (hl : dget srv.leases src = some le)
    (hw : p.requestedIp = some le.ip)
    (hn : nakFn ⟨src, le.ip, some port, some dpid, true, false⟩ = false) :
    getSub (exec_request (fuel + 1) nakFn sid src port dpid p now net).net sid =
      some { srv with leases := dset srv.leases src (le.refresh now) } ∧
    ({ srv with leases := dset srv.leases src (le.refresh now) } :
      ServerState).pool = srv.pool ∧
    ({ srv with leases := dset srv.leases src (le.refresh now) } :
      ServerState).offers = srv.offers ∧
    dget (dset srv.leases src (le.refresh now)) src = some (le.refresh now) ∧
    (le.refresh now).lastTimeSeen = now ∧
    (le.refresh now).ip = le.ip ∧
    (∀ m, m ≠ src →
      dget (dset srv.leases src (le.refresh now)) m = dget srv.leases m) ∧
    (∀ k, k ≠ sid →
      getSub (exec_request (fuel + 1) nakFn sid src port dpid p now net).net k =
        getSub net k) ∧
    (exec_request (fuel + 1) nakFn sid src port dpid p now net).net.mobile_hosts =
      net.mobile_hosts ∧
    (exec_request (fuel + 1) nakFn sid src port dpid p now net).replies =
      [.ackMsg le.ip] ∧
    (exec_request (fuel + 1) nakFn sid src port dpid p now net).error = none := by
  have h := exec_request_renewal fuel nakFn sid src port dpid now p net srv le hs hl hw
  rw [h]
  refine ⟨?_, rfl, rfl, dget_dset_self _ _ _, rfl, rfl, ?_, ?_, rfl, ?_, rfl⟩
  · rw [getSub_updSub_self, hs]; rfl
  · intro m hm; exact dget_dset_ne _ hm _
  · intro k hk; exact getSub_updSub_ne _ hk _
  · simp [hn]

/-- Witness for C4: client `10` renews its lease on `192.168.0.100` at time
100; the last-seen of the lease is reset and the reply is ACK. -/
theorem c4_witness :
    getSub (exec_request 1 (fun _ => false) 1 10 7 5 ⟨10, 0, some 3232235620⟩
        100 demoNet2).net 1 =
      some { demoSrvLeased with
              leases := dset demoSrvLeased.leases 10
                ((LeaseEntry.make 3232235620 0).refresh 100) } ∧
    (exec_request 1 (fun _ => false) 1 10 7 5 ⟨10, 0, some 3232235620⟩
        100 demoNet2).replies = [.ackMsg 3232235620] := by
  have h := c4_renewal_stability 0 (fun _ => false) 1 10 7 5 100
    ⟨10, 0, some 3232235620⟩ demoNet2 demoSrvLeased (LeaseEntry.make 3232235620 0)
    (by decide) (by decide) (by decide) rfl
  exact ⟨h.1, h.2.2.2.2.2.2.2.2.2.1⟩

/-- C5.  A client marked mobile for address `A`, with no local lease, offer,
or pool availability for `A`, has its REQUEST for `A` delegated to the unique
subnet that holds its lease: that lease is refreshed in place (no new lease
anywhere, every other subnet untouched) and the owner ACKs; finding the
client leased on more than one subnet fails loudly with a `RuntimeError`. -/
theorem c5_roaming_idempotence (fuel : Nat) (nakFn : LeaseEv → Bool)
    (sid src port dpid now : Nat) (p : DhcpMsg) (net : NetState)
    (srv : ServerState) (A : Addr)
    (hmob : dget net.mobile_hosts src = some A)
    (hw : p.requestedIp = some A)
    (hs : getSub net sid = some srv)
    (hnl : dget srv.leases src = none)
    (hno : dget srv.offers src = none)
    (hnp : srv.pool.contains A = false) :
    (∀ oid osrv ole,
      net.subnets.filter (fun ks => (dget ks.2.leases src).isSome) = [(oid, osrv)] →
      getSub net oid = some osrv → dget osrv.leases src = some ole → ole.ip = A →
      nakFn ⟨src, A, some port, some dpid, true, false⟩ = false →
      exec_request (fuel + 2) nakFn sid src port dpid p now net =
        exec_request (fuel + 1) nakFn oid src port dpid p now net ∧
      getSub (exec_request (fuel + 2) nakFn sid src port dpid p now net).net oid =
        some { osrv with leases := dset osrv.leases src (ole.refresh now) } ∧
      ({ osrv with leases := dset osrv.leases src (ole.refresh now) } :
        ServerState).pool = osrv.pool ∧
      dget (dset osrv.leases src (ole.refresh now)) src = some (ole.refresh now) ∧
      (∀ m, m ≠ src →
        dget (dset osrv.leases src (ole.refresh now)) m = dget osrv.leases m) ∧
      (∀ k, k ≠ oid →
        getSub (exec_request (fuel + 2) nakFn sid src port dpid p now net).net k =
          getSub net k) ∧
      (exec_request (fuel + 2) nakFn sid src port dpid p now net).replies =
        [.ackMsg A] ∧
      (exec_request (fuel + 2) nakFn sid src port dpid p now net).error = none) ∧
    (∀ c1 c2 rest,
      net.subnets.filter (fun ks => (dget ks.2.leases src).isSome) =
        c1 :: c2 :: rest →
      exec_request (fuel + 2) nakFn sid src port dpid p now net =
        ⟨net, [], [], some (.runtimeError ("found on multiple servers"))⟩) := by
  have hs2 : dget net.subnets sid = some srv := hs
  have h1 : reqRenew sid src A now true net = .cont net none := by
    simp [reqRenew, getSub, hs2, hnl]
  have h2 : reqOffer sid src A now net = .cont net none := by
    simp [reqOffer, getSub, hs2, hno]
  have h3 : reqFresh sid src A now true net = .cont net none := by
    simp [reqFresh, getSub, hs2, hnp]
  constructor
  · intro oid osrv ole hcand hso hol hoip hnak
    subst hoip
    have hreq : exec_request (fuel + 2) nakFn sid src port dpid p now net =
        exec_request (fuel + 1) nakFn oid src port dpid p now net := by
      simp only [exec_request, hw, hmob, Option.isSome_some, h1, stageIf, h2, h3,
        hcand, eq_self_iff_true, if_true]
    have hinner :=
      exec_request_renewal fuel nakFn oid src port dpid now p net osrv ole hso hol hw
    refine ⟨hreq, ?_, rfl, dget_dset_self _ _ _, ?_, ?_, ?_, ?_⟩
    · rw [hreq, hinner]
      rw [getSub_updSub_self, hso]; rfl
    · intro m hm; exact dget_dset_ne _ hm _
    · intro k hk
      rw [hreq, hinner]
      exact getSub_updSub_ne _ hk _
    · rw [hreq, hinner]
      simp [hnak]
    · rw [hreq, hinner]
  · intro c1 c2 rest hcand
    simp only [exec_request, hw, hmob, Option.isSome_some, h1, stageIf, h2, h3,
      hcand, eq_self_iff_true, if_true]

/-- Witness for C5: client `10` is mobile for `192.168.0.100` (leased on
subnet 1) and REQUESTs it while attached to subnet 2; the request is
delegated to subnet 1 and ACKed. -/
theorem c5_witness :
    exec_request 2 (fun _ => false) 2 10 7 5 ⟨10, 0, some 3232235620⟩ 100 roamNet =
      exec_request 1 (fun _ => false) 1 10 7 5 ⟨10, 0, some 3232235620⟩ 100 roamNet ∧
    (exec_request 2 (fun _ => false) 2 10 7 5 ⟨10, 0, some 3232235620⟩
        100 roamNet).replies = [.ackMsg 3232235620] := by
  have h := (c5_roaming_idempotence 0 (fun _ => false) 2 10 7 5 100
    ⟨10, 0, some 3232235620⟩ roamNet roamSrvB 3232235620
    (by decide) rfl (by decide) (by decide) (by decide) (by decide)).1
    1 demoSrvLeased (LeaseEntry.make 3232235620 0)
    (by decide) (by decide) (by decide) (by decide) rfl
  exact ⟨h.1, h.2.2.2.2.2.2.1⟩

/-- C7.  `nth`/`__getitem__` on a valid pool: fails with `IndexError` exactly
when `index ≥ size()`; below `size()` it terminates with an address for which
`contains` holds; and distinct in-range indices return distinct available
addresses (with no intervening mutation). -/
theorem c7_nth_spec (p : SimpleAddressPool) (hv : p.Valid) (i j : Nat)
    (hij : i ≠ j) :
    (p.getitem i = .error .indexError ↔ (i : Int) ≥ p.pyLen) ∧
    ((i : Int) < p.pyLen → ∃ a, p.getitem i = .ok a ∧ p.contains a = true) ∧
    ((i : Int) < p.pyLen → (j : Int) < p.pyLen → p.getitem i ≠ p.getitem j) := by
  obtain ⟨_, hw1, hw2⟩ := SimpleAddressPool.wrapStart_spec p hv
  have hlen := SimpleAddressPool.avail_length p hv
  have hle := SimpleAddressPool.card_removed_le p hv
  set L := (p.cells p.countN p.wrapStart).filter
    (fun x => decide ((x ||| p.network) ∉ p.removed)) with hLdef
  have hpy : p.pyLen = (p.countN : Int) - (p.removed.card : Int) := by
    unfold SimpleAddressPool.pyLen
    rw [SimpleAddressPool.countN_eq p hv]
    rfl
  have hidx : ∀ m : Nat, (m : Int) < p.pyLen → m < L.length := by
    intro m hm
    rw [hLdef, hlen]
    rw [hpy] at hm
    omega
  have hscan : ∀ m : Nat, p.scanAux p.countN p.wrapStart m =
      (match L[m]? with
        | some x => .ok (x ||| p.network)
        | none => .error (.runtimeError ("loop fuel"))) := fun m =>
    SimpleAddressPool.scanAux_eq p hv p.countN p.wrapStart m hw1 hw2
  have hsome : ∀ m : Nat, (hm : m < L.length) → L[m]? = some (L.get ⟨m, hm⟩) := by
    intro m hm
    rw [List.getElem?_eq_getElem hm]
    simp [List.get_eq_getElem]
  have hget : ∀ m : Nat, (hm : (m : Int) < p.pyLen) →
      p.getitem m = .ok (L.get ⟨m, hidx m hm⟩ ||| p.network) := by
    intro m hm
    unfold SimpleAddressPool.getitem
    rw [if_neg (not_le.mpr hm), hscan m, hsome m (hidx m hm)]
  refine ⟨⟨?_, ?_⟩, ?_, ?_⟩
  · intro h
    by_contra hge
    push_neg at hge
    rw [hget i hge] at h
    simp at h
  · intro hge
    unfold SimpleAddressPool.getitem
    rw [if_pos hge]
  · intro hlt
    refine ⟨L.get ⟨i, hidx i hlt⟩ ||| p.network, hget i hlt, ?_⟩
    apply SimpleAddressPool.scanAux_ok_contains p p.countN p.wrapStart i
    rw [hscan i, hsome i (hidx i hlt)]
  · intro hi' hj'
    rw [hget i hi', hget j hj']
    intro heq
    have hnd : L.Nodup := (SimpleAddressPool.cells_nodup p hv hw1 hw2).filter _
    have hxy : L.get ⟨i, hidx i hi'⟩ ||| p.network =
        L.get ⟨j, hidx j hj'⟩ ||| p.network := by
      simpa using heq
    have hxmem : L.get ⟨i, hidx i hi'⟩ ∈ p.cells p.countN p.wrapStart :=
      List.mem_of_mem_filter (L.get_mem i (hidx i hi'))
    have hymem : L.get ⟨j, hidx j hj'⟩ ∈ p.cells p.countN p.wrapStart :=
      List.mem_of_mem_filter (L.get_mem j (hidx j hj'))
    have hbx := SimpleAddressPool.cells_mem p hv hw1 hw2 hxmem
    have hby := SimpleAddressPool.cells_mem p hv hw1 hw2 hymem
    have heqc := SimpleAddressPool.cell_inj p hv hbx.2 hby.2 hxy
    have hfin := List.nodup_iff_injective_get.mp hnd heqc
    exact hij (congrArg Fin.val hfin)

/-- Witness for C7 on a concrete valid pool with five available addresses. -/
theorem c7_witness :
    ((0 : Int) < nthDemoPool.pyLen ∧ (1 : Int) < nthDemoPool.pyLen) ∧
    (∃ a, nthDemoPool.getitem 0 = .ok a ∧ nthDemoPool.contains a = true) ∧
    nthDemoPool.getitem 0 ≠ nthDemoPool.getitem 1 := by
  have h := c7_nth_spec nthDemoPool (by decide) 0 1 (by decide)
  exact ⟨⟨by decide, by decide⟩, h.2.1 (by decide), h.2.2 (by decide) (by decide)⟩

/-! ### The own-address invariant (C10) -/

lemma sameIps_refl (net : NetState) : sameIps net net := fun _ => rfl

lemma sameIps_trans {a b c : NetState} (h1 : sameIps a b) (h2 : sameIps b c) :
    sameIps a c := fun k => (h2 k).trans (h1 k)

lemma sameIps_mobile {net : NetState} (m : List (Mac × Addr)) :
    sameIps net { net with mobile_hosts := m } := fun _ => rfl

lemma sameIps_updSub {net : NetState} {sid : Nat} {srv srv2 : ServerState}
    (hg : getSub net sid = some srv) (hip : srv2.ip_addr = srv.ip_addr) :
    sameIps net (updSub net sid srv2) := by
  intro k
  by_cases hk : k = sid
  · subst hk
    rw [getSub_updSub_self, hg]
    simp [hip]
  · rw [getSub_updSub_ne _ hk]

lemma sameIps_mobile_updSub {net : NetState} {sid : Nat} {srv : ServerState}
    (hg : getSub net sid = some srv) (pl : SimpleAddressPool)
    (ofs : List (Mac × Addr)) (ls : List (Mac × LeaseEntry))
    (m : List (Mac × Addr)) :
    sameIps net (updSub { net with mobile_hosts := m } sid
      ⟨pl, srv.ip_addr, ofs, ls⟩) := by
  intro k
  by_cases hk : k = sid
  · subst hk
    rw [getSub_updSub_self]
    have hg2 : getSub { net with mobile_hosts := m } k = getSub net k := rfl
    rw [hg2, hg]
    simp
  · rw [getSub_updSub_ne _ hk]
    rfl

lemma sameIps_updSub_mobile {net : NetState} {sid : Nat} {srv : ServerState}
    (hg : getSub net sid = some srv) (pl : SimpleAddressPool)
    (ofs : List (Mac × Addr)) (ls : List (Mac × LeaseEntry))
    (m : List (Mac × Addr)) :
    sameIps net { updSub net sid ⟨pl, srv.ip_addr, ofs, ls⟩ with
      mobile_hosts := m } := by
  intro k
  have hg2 : getSub { updSub net sid (⟨pl, srv.ip_addr, ofs, ls⟩ : ServerState) with
      mobile_hosts := m } k = getSub (updSub net sid ⟨pl, srv.ip_addr, ofs, ls⟩) k := rfl
  rw [hg2]
  by_cases hk : k = sid
  · subst hk
    rw [getSub_updSub_self, hg]
    simp
  · rw [getSub_updSub_ne _ hk]

lemma OwnSafe_mobile {net : NetState} (h : OwnSafe net) (m : List (Mac × Addr)) :
    OwnSafe { net with mobile_hosts := m } := fun sid srv hg => h sid srv hg

lemma OwnSafe_updSub {net : NetState} {sid : Nat} {srv : ServerState}
    (h : OwnSafe net) (hs : srvSafe srv) : OwnSafe (updSub net sid srv) := by
  intro k s hk
  by_cases hks : k = sid
  · subst hks
    rw [getSub_updSub_self] at hk
    rcases hg : getSub net k with _ | s0
    · rw [hg] at hk; simp at hk
    · rw [hg] at hk
      simp only [Option.map_some'] at hk
      rw [← Option.some.inj hk]
      exact hs
  · rw [getSub_updSub_ne _ hks] at hk
    exact h k s hk

lemma dget_dset_cases {β : Type} {l : List (Nat × β)} {k k' : Nat} {v w : β}
    (h : dget (dset l k v) k' = some w) : w = v ∨ dget l k' = some w := by
  by_cases hk : k' = k
  · subst hk
    rw [dget_dset_self] at h
    exact Or.inl (Option.some.inj h).symm
  · rw [dget_dset_ne _ hk] at h
    exact Or.inr h

lemma dget_ddel_le {β : Type} {l : List (Nat × β)} {k k' : Nat} {w : β}
    (h : dget (ddel l k) k' = some w) : dget l k' = some w := by
  by_cases hk : k' = k
  · subst hk
    rw [dget_ddel_self] at h
    simp at h
  · rw [dget_ddel_ne _ hk] at h
    exact h

lemma remove_eq {p p2 : SimpleAddressPool} {a : Addr} (h : p.remove a = .ok p2) :
    p2 = { p with removed := insert a p.removed } ∧ p.contains a = true := by
  unfold SimpleAddressPool.remove at h
  by_cases hc : p.contains a
  · rw [if_pos hc] at h
    exact ⟨(Option.some.inj (by simpa using h)).symm, hc⟩
  · rw [if_neg hc] at h
    simp at h

lemma append_eq {p p2 : SimpleAddressPool} {a : Addr} (h : p.append a = .ok p2) :
    p2 = { p with removed := p.removed.erase a } ∧ a ∈ p.removed := by
  unfold SimpleAddressPool.append at h
  by_cases hm : a ∈ p.removed
  · rw [if_pos hm] at h
    exact ⟨(Option.some.inj (by simpa using h)).symm, hm⟩
  · rw [if_neg hm] at h
    split_ifs at h

lemma contains_false_insert {p : SimpleAddressPool} {x a : Addr}
    (h : p.contains x = false) :
    SimpleAddressPool.contains { p with removed := insert a p.removed } x = false := by
  unfold SimpleAddressPool.contains at h ⊢
  dsimp only
  by_cases hm : x ∈ insert a p.removed
  · rw [if_pos hm]
  · have hm2 : x ∉ p.removed := fun hh => hm (Finset.mem_insert_of_mem hh)
    rw [if_neg hm]
    rw [if_neg hm2] at h
    exact h

lemma contains_false_erase {p : SimpleAddressPool} {x a : Addr} (hne : x ≠ a)
    (h : p.contains x = false) :
    SimpleAddressPool.contains { p with removed := p.removed.erase a } x = false := by
  unfold SimpleAddressPool.contains at h ⊢
  dsimp only
  by_cases hm : x ∈ p.removed
  · have hm2 : x ∈ p.removed.erase a := Finset.mem_erase.mpr ⟨hne, hm⟩
    rw [if_pos hm2]
  · have hm2 : x ∉ p.removed.erase a := fun hh => hm (Finset.mem_of_mem_erase hh)
    rw [if_neg hm2]
    rw [if_neg hm] at h
    exact h

lemma getitem_ok_contains {p : SimpleAddressPool} {i : Nat} {a : Addr}
    (h : p.getitem i = .ok a) : p.contains a = true := by
  unfold SimpleAddressPool.getitem at h
  by_cases hc : (i : Int) ≥ p.pyLen
  · rw [if_pos hc] at h
    simp at h
  · rw [if_neg hc] at h
    exact SimpleAddressPool.scanAux_ok_contains p _ _ _ _ h

lemma stageOK_mono {net n1 : NetState} {sid : Nat} (hsame : sameIps net n1)
    {r : StageRes} (hr : stageOK n1 sid r) : stageOK net sid r := by
  cases r with
  | err n e => exact hr
  | cont n g =>
    refine ⟨hr.1, sameIps_trans hsame hr.2.1, ?_⟩
    intro le hle srv hsrv
    have hm := hsame sid
    rcases hg1 : getSub n1 sid with _ | srv1
    · rw [hg1, hsrv] at hm
      simp at hm
    · rw [hg1, hsrv] at hm
      simp only [Option.map_some', Option.some.injEq] at hm
      have h2 := hr.2.2 le hle srv1 hg1
      rw [← hm]
      exact h2


lemma reqRenew_ownSafe (sid src wanted now : Nat) (im : Bool) (net : NetState)
    (h : OwnSafe net) : stageOK net sid (reqRenew sid src wanted now im net) := by
  unfold reqRenew
  cases hgs : getSub net sid with
  | none => exact h
  | some srv =>
    dsimp only
    have hsafe := h sid srv hgs
    cases hgl : dget srv.leases src with
    | none => exact ⟨h, sameIps_refl net, fun le hle => by simp at hle⟩
    | some le =>
      dsimp only
      have hlip : le.ip ≠ srv.ip_addr := hsafe.2.1 src le hgl
      by_cases hne : wanted ≠ le.ip
      · rw [if_pos hne]
        cases hdm : (if im = true then ddelPy net.mobile_hosts src
            else Except.ok net.mobile_hosts) with
        | error e => exact h
        | ok mh =>
          dsimp only
          cases hap : srv.pool.append le.ip with
          | error e => exact OwnSafe_mobile h mh
          | ok pl =>
            dsimp only
            obtain ⟨hpe, _⟩ := append_eq hap
            subst hpe
            refine ⟨?_, ?_, fun le2 hle2 => by simp at hle2⟩
            · apply OwnSafe_updSub (OwnSafe_mobile h mh)
              exact ⟨hsafe.1, fun m le2 hm => hsafe.2.1 m le2 (dget_ddel_le hm),
                contains_false_erase (Ne.symm hlip) hsafe.2.2⟩
            · exact sameIps_mobile_updSub hgs _ _ _ mh
      · rw [if_neg hne]
        refine ⟨?_, sameIps_updSub hgs rfl, ?_⟩
        · apply OwnSafe_updSub h
          refine ⟨hsafe.1, ?_, hsafe.2.2⟩
          intro m le2 hm
          rcases dget_dset_cases hm with rfl | hold
          · exact hlip
          · exact hsafe.2.1 m le2 hold
        · intro le2 hle2 srv0 hsrv0
          rw [hgs] at hsrv0
          have hsrv0e := Option.some.inj hsrv0
          have hle2e : le2 = le.refresh now := (Option.some.inj hle2).symm
          subst hle2e
          rw [← hsrv0e]
          exact hlip

lemma reqOffer_ownSafe (sid src wanted now : Nat) (net : NetState)
    (h : OwnSafe net) : stageOK net sid (reqOffer sid src wanted now net) := by
  unfold reqOffer
  cases hgs : getSub net sid with
  | none => exact h
  | some srv =>
    dsimp only
    have hsafe := h sid srv hgs
    cases hgo : dget srv.offers src with
    | none => exact ⟨h, sameIps_refl net, fun le hle => by simp at hle⟩
    | some off =>
      dsimp only
      have hoip : off ≠ srv.ip_addr := hsafe.1 src off hgo
      by_cases hne : wanted ≠ off
      · rw [if_pos hne]
        cases hap : srv.pool.append off with
        | error e => exact h
        | ok pl =>
          dsimp only
          obtain ⟨hpe, _⟩ := append_eq hap
          subst hpe
          refine ⟨?_, sameIps_updSub hgs rfl, fun le hle => by simp at hle⟩
          apply OwnSafe_updSub h
          exact ⟨fun m a hm => hsafe.1 m a (dget_ddel_le hm), hsafe.2.1,
            contains_false_erase (Ne.symm hoip) hsafe.2.2⟩
      · rw [if_neg hne]
        refine ⟨?_, sameIps_updSub hgs rfl, ?_⟩
        · apply OwnSafe_updSub h
          exact ⟨fun m a hm => hsafe.1 m a (dget_ddel_le hm), hsafe.2.1, hsafe.2.2⟩
        · intro le hle srv0 hsrv0
          rw [hgs] at hsrv0
          have hsrv0e := Option.some.inj hsrv0
          have hlee : le = LeaseEntry.make off now := (Option.some.inj hle).symm
          subst hlee
          rw [← hsrv0e]
          exact hoip

lemma reqFresh_ownSafe (sid src wanted now : Nat) (im : Bool) (net : NetState)
    (h : OwnSafe net) : stageOK net sid (reqFresh sid src wanted now im net) := by
  unfold reqFresh
  cases hgs : getSub net sid with
  | none => exact h
  | some srv =>
    dsimp only
    have hsafe := h sid srv hgs
    by_cases hc : srv.pool.contains wanted
    · rw [if_pos hc]
      have hwip : wanted ≠ srv.ip_addr := by
        intro he
        rw [he, hsafe.2.2] at hc
        cases hc
      cases hrm : srv.pool.remove wanted with
      | error e => exact h
      | ok pl =>
        dsimp only
        obtain ⟨hpe, _⟩ := remove_eq hrm
        subst hpe
        have hO1 : OwnSafe (updSub net sid
            { srv with pool :=
              { srv.pool with removed := insert wanted srv.pool.removed } }) := by
          apply OwnSafe_updSub h
          exact ⟨hsafe.1, hsafe.2.1, contains_false_insert hsafe.2.2⟩
        rw [updSub_mobile]
        cases hdm : (if im = true then ddelPy net.mobile_hosts src
            else Except.ok net.mobile_hosts) with
        | error e => exact hO1
        | ok mh =>
          dsimp only
          refine ⟨?_, ?_, ?_⟩
          · exact OwnSafe_mobile hO1 mh
          · exact sameIps_updSub_mobile hgs _ _ _ mh
          · intro le hle srv0 hsrv0
            rw [hgs] at hsrv0
            have hsrv0e := Option.some.inj hsrv0
            have hlee : le = LeaseEntry.make wanted now := (Option.some.inj hle).symm
            subst hlee
            rw [← hsrv0e]
            exact hwip
    · rw [if_neg hc]
      exact ⟨h, sameIps_refl net, fun le hle => by simp at hle⟩

lemma reqNewMobile_spec {sid src wanted : Nat} {net : NetState} {tid : Nat}
    {n2 : NetState} (h : reqNewMobile sid src wanted net = some (tid, n2)) :
    n2 = { net with mobile_hosts := dset net.mobile_hosts src wanted } := by
  unfold reqNewMobile at h
  cases hf : (net.subnets.filter (fun ks => decide (ks.1 ≠ sid))).find?
      (fun ks =>
        match dget ks.2.leases src with
        | some le => decide (le.ip = wanted)
        | none => false) with
  | none => rw [hf] at h; simp at h
  | some ks =>
    rw [hf] at h
    simp only [Option.some.injEq, Prod.mk.injEq] at h
    exact h.2.symm

lemma discover_alloc_safe {net : NetState} {sid : Nat} {srv : ServerState}
    {offer : Addr} {pl : SimpleAddressPool} (h : OwnSafe net)
    (hgs : getSub net sid = some srv)
    (hcont : srv.pool.contains offer = true)
    (hrm : srv.pool.remove offer = .ok pl) (src : Mac) :
    OwnSafe (updSub net sid
      { srv with pool := pl, offers := dset srv.offers src offer }) := by
  have hsafe := h sid srv hgs
  have hne : offer ≠ srv.ip_addr := by
    intro he
    rw [he, hsafe.2.2] at hcont
    cases hcont
  obtain ⟨hpe, _⟩ := remove_eq hrm
  subst hpe
  apply OwnSafe_updSub h
  refine ⟨?_, hsafe.2.1, contains_false_insert hsafe.2.2⟩
  intro m a hm
  rcases dget_dset_cases hm with rfl | hold
  · exact hne
  · exact hsafe.1 m a hold

lemma exec_discover_ownSafe (sid src : Nat) (p : DhcpMsg) (net : NetState)
    (h : OwnSafe net) : OwnSafe (exec_discover sid src p net).net := by
  unfold exec_discover
  cases hgs : getSub net sid with
  | none => exact h
  | some srv =>
    dsimp only
    have hsafe := h sid srv hgs
    cases hgl : dget srv.leases src with
    | some le =>
      apply OwnSafe_updSub h
      refine ⟨?_, ?_, hsafe.2.2⟩
      · intro m a hm
        rcases dget_dset_cases hm with rfl | hold
        · exact hsafe.2.1 src le hgl
        · exact hsafe.1 m a hold
      · intro m le2 hm
        exact hsafe.2.1 m le2 (dget_ddel_le hm)
    | none =>
      dsimp only
      cases hgo : dget srv.offers src with
      | some off => exact h
      | none =>
        dsimp only
        by_cases hz : srv.pool.pyLen = 0
        · rw [if_pos hz]
          exact h
        · rw [if_neg hz]
          cases hgi : srv.pool.getitem 0 with
          | error e => exact h
          | ok fstA =>
            dsimp only
            cases hreq : p.requestedIp with
            | none =>
              dsimp only
              cases hrm : srv.pool.remove fstA with
              | error e => exact h
              | ok pl =>
                exact discover_alloc_safe h hgs (getitem_ok_contains hgi) hrm src
            | some wanted =>
              dsimp only
              by_cases hcw : srv.pool.contains wanted
              · rw [if_pos hcw]
                cases hrm : srv.pool.remove wanted with
                | error e => exact h
                | ok pl => exact discover_alloc_safe h hgs hcw hrm src
              · rw [if_neg hcw]
                cases hrm : srv.pool.remove fstA with
                | error e => exact h
                | ok pl =>
                  exact discover_alloc_safe h hgs (getitem_ok_contains hgi) hrm src

lemma exec_release_ownSafe (sid src : Nat) (p : DhcpMsg) (net : NetState)
    (h : OwnSafe net) : OwnSafe (exec_release sid src p net).net := by
  unfold exec_release
  cases hgs : getSub net sid with
  | none => exact h
  | some srv =>
    dsimp only
    have hsafe := h sid srv hgs
    by_cases hsrc : src ≠ p.chaddr
    · rw [if_pos hsrc]
      exact h
    · rw [if_neg hsrc]
      cases hgl : dget srv.leases p.chaddr with
      | none => exact h
      | some le =>
        dsimp only
        by_cases hip : le.ip ≠ p.ciaddr
        · rw [if_pos hip]
          exact h
        · rw [if_neg hip]
          push_neg at hip
          have hlip : le.ip ≠ srv.ip_addr := hsafe.2.1 p.chaddr le hgl
          have hcip : p.ciaddr ≠ srv.ip_addr := hip ▸ hlip
          cases hap : srv.pool.append p.ciaddr with
          | error e =>
            apply OwnSafe_updSub h
            refine ⟨hsafe.1, ?_, hsafe.2.2⟩
            intro m le2 hm
            exact hsafe.2.1 m le2 (dget_ddel_le hm)
          | ok pl =>
            dsimp only
            obtain ⟨hpe, _⟩ := append_eq hap
            subst hpe
            apply OwnSafe_mobile
            apply OwnSafe_updSub h
            refine ⟨hsafe.1, ?_, contains_false_erase (Ne.symm hcip) hsafe.2.2⟩
            intro m le2 hm
            exact hsafe.2.1 m le2 (dget_ddel_le hm)

lemma check_leases_go_ownSafe (sid now : Nat) (nakFn : LeaseEv → Bool) :
    ∀ (clients : List Mac) (net : NetState), OwnSafe net →
      OwnSafe (check_leases_go sid now nakFn clients net).net := by
  intro clients
  induction clients with
  | nil => intro net h; exact h
  | cons client rest ih =>
    intro net h
    rw [check_leases_go]
    cases hgs : getSub net sid with
    | none => exact h
    | some srv =>
      dsimp only
      have hsafe := h sid srv hgs
      cases hgl : dget srv.leases client with
      | none => exact h
      | some lease =>
        dsimp only
        by_cases hex : lease.expired now = true
        · rw [if_pos hex]
          cases hap : srv.pool.append lease.ip with
          | error e => exact h
          | ok pl =>
            dsimp only [mkDHCPLease]
            have hlip : lease.ip ≠ srv.ip_addr := hsafe.2.1 client lease hgl
            obtain ⟨hpe, _⟩ := append_eq hap
            subst hpe
            apply OwnSafe_updSub h
            exact ⟨hsafe.1, hsafe.2.1,
              contains_false_erase (Ne.symm hlip) hsafe.2.2⟩
        · rw [if_neg hex]
          exact ih net h

lemma check_leases_ownSafe (sid now : Nat) (nakFn : LeaseEv → Bool)
    (net : NetState) (h : OwnSafe net) :
    OwnSafe (check_leases sid now nakFn net).net := by
  unfold check_leases
  cases hgs : getSub net sid with
  | none => exact h
  | some srv => exact check_leases_go_ownSafe sid now nakFn _ net h

lemma exec_request_ownSafe :
    ∀ (fuel : Nat) (nakFn : LeaseEv → Bool) (sid src port dpid : Nat)
      (p : DhcpMsg) (now : Nat) (net : NetState), OwnSafe net →
      OwnSafe (exec_request fuel nakFn sid src port dpid p now net).net := by
  intro fuel
  induction fuel with
  | zero => intro nakFn sid src port dpid p now net h; exact h
  | succ fuel ih =>
    intro nakFn sid src port dpid p now net h
    rw [exec_request]
    cases hw : p.requestedIp with
    | none => exact h
    | some wanted =>
      dsimp only
      have hst1 := reqRenew_ownSafe sid src wanted now
        ((dget net.mobile_hosts src).isSome) net h
      cases hr1 : reqRenew sid src wanted now
          ((dget net.mobile_hosts src).isSome) net with
      | err n e => rw [hr1] at hst1; exact hst1
      | cont n1 g1 =>
        rw [hr1] at hst1
        obtain ⟨hO1, hS1, hG1⟩ := hst1
        dsimp only
        have hst2 : stageOK net sid (stageIf g1 n1 (reqOffer sid src wanted now)) := by
          cases g1 with
          | some g => exact ⟨hO1, hS1, hG1⟩
          | none => exact stageOK_mono hS1 (reqOffer_ownSafe sid src wanted now n1 hO1)
        cases hr2 : stageIf g1 n1 (reqOffer sid src wanted now) with
        | err n e => rw [hr2] at hst2; exact hst2
        | cont n2 g2 =>
          rw [hr2] at hst2
          obtain ⟨hO2, hS2, hG2⟩ := hst2
          dsimp only
          have hst3 : stageOK net sid (stageIf g2 n2
              (reqFresh sid src wanted now ((dget net.mobile_hosts src).isSome))) := by
            cases g2 with
            | some g => exact ⟨hO2, hS2, hG2⟩
            | none =>
              exact stageOK_mono hS2
                (reqFresh_ownSafe sid src wanted now _ n2 hO2)
          cases hr3 : stageIf g2 n2
              (reqFresh sid src wanted now ((dget net.mobile_hosts src).isSome)) with
          | err n e => rw [hr3] at hst3; exact hst3
          | cont n3 g3 =>
            rw [hr3] at hst3
            obtain ⟨hO3, hS3, hG3⟩ := hst3
            dsimp only
            cases g3 with
            | none =>
              dsimp only
              cases hmg : dget n3.mobile_hosts src with
              | some mip =>
                dsimp only
                by_cases hmw : mip = wanted
                · rw [if_pos hmw]
                  cases hflt : n3.subnets.filter
                      (fun ks => (dget ks.2.leases src).isSome) with
                  | nil => exact hO3
                  | cons c rest =>
                    cases rest with
                    | nil => exact ih nakFn c.1 src port dpid p now n3 hO3
                    | cons c2 rest2 => exact hO3
                · rw [if_neg hmw]
                  cases hnm : reqNewMobile sid src wanted n3 with
                  | none => exact hO3
                  | some pr =>
                    obtain ⟨tid, n4⟩ := pr
                    have hn4 := reqNewMobile_spec hnm
                    subst hn4
                    exact ih nakFn tid src port dpid p now _ (OwnSafe_mobile hO3 _)
              | none =>
                dsimp only
                cases hnm : reqNewMobile sid src wanted n3 with
                | none => exact hO3
                | some pr =>
                  obtain ⟨tid, n4⟩ := pr
                  have hn4 := reqNewMobile_spec hnm
                  subst hn4
                  exact ih nakFn tid src port dpid p now _ (OwnSafe_mobile hO3 _)
            | some got =>
              dsimp only
              by_cases hga : got.ip ≠ wanted
              · rw [if_pos hga]
                exact hO3
              · rw [if_neg hga]
                cases hg3s : getSub n3 sid with
                | none => exact hO3
                | some srv3 =>
                  dsimp only
                  have hsafe3 := hO3 sid srv3 hg3s
                  have hip3 : got.ip ≠ srv3.ip_addr := by
                    have hm := hS3 sid
                    rcases hg0 : getSub net sid with _ | srv0
                    · rw [hg3s, hg0] at hm
                      simp at hm
                    · rw [hg3s, hg0] at hm
                      simp only [Option.map_some', Option.some.injEq] at hm
                      rw [hm]
                      exact hG3 got rfl srv0 hg0
                  have hnetsafe : OwnSafe (updSub n3 sid
                      { srv3 with leases := dset srv3.leases src got }) := by
                    apply OwnSafe_updSub hO3
                    refine ⟨hsafe3.1, ?_, hsafe3.2.2⟩
                    intro m le2 hm2
                    rcases dget_dset_cases hm2 with rfl | hold
                    · exact hip3
                    · exact hsafe3.2.1 m le2 hold
                  have hmk : mkDHCPLease src (.entry got) (some port) (some dpid)
                      true false =
                      .ok ⟨src, got.ip, some port, some dpid, true, false⟩ := rfl
                  rw [hmk]
                  dsimp only
                  by_cases hnk : nakFn ⟨src, got.ip, some port, some dpid,
                      true, false⟩ = true
                  · rw [if_pos hnk]
                    exact hnetsafe
                  · rw [if_neg hnk]
                    exact hnetsafe

lemma DHCPServer_init_srvSafe (ip : Addr) (pl : SimpleAddressPool) :
    srvSafe (DHCPServer.init ip pl) := by
  unfold DHCPServer.init
  by_cases hc : pl.contains ip = true
  · rw [if_pos hc]
    cases hrm : pl.remove ip with
    | error e =>
      unfold SimpleAddressPool.remove at hrm
      rw [if_pos hc] at hrm
      cases hrm
    | ok p2 =>
      obtain ⟨hpe, _⟩ := remove_eq hrm
      subst hpe
      refine ⟨fun m a hm => by simp [dget] at hm,
        fun m le hm => by simp [dget] at hm, ?_⟩
      unfold SimpleAddressPool.contains
      dsimp only
      rw [if_pos (Finset.mem_insert_self ip pl.removed)]
  · rw [if_neg hc]
    refine ⟨fun m a hm => by simp [dget] at hm,
      fun m le hm => by simp [dget] at hm, ?_⟩
    simpa using hc

lemma DHCPServer_init_ip (ip : Addr) (pl : SimpleAddressPool) :
    (DHCPServer.init ip pl).ip_addr = ip := by
  unfold DHCPServer.init
  by_cases hc : pl.contains ip = true
  · rw [if_pos hc]
    cases pl.remove ip <;> rfl
  · rw [if_neg hc]

lemma step_ownSafe (e : NetEvent) (net : NetState) (h : OwnSafe net) :
    OwnSafe (step e net).net := by
  cases e with
  | discover sid src p => exact exec_discover_ownSafe sid src p net h
  | request fuel nakFn sid src port dpid p now =>
    exact exec_request_ownSafe fuel nakFn sid src port dpid p now net h
  | release sid src p => exact exec_release_ownSafe sid src p net h
  | sweep sid now nakFn => exact check_leases_ownSafe sid now nakFn net h

lemma run_ownSafe :
    ∀ (es : List NetEvent) (net : NetState), OwnSafe net → OwnSafe (run es net) := by
  intro es
  induction es with
  | nil => intro net h; exact h
  | cons e rest ih =>
    intro net h
    have hstep : run (e :: rest) net = run rest (step e net).net := by
      unfold run
      rw [List.foldl_cons]
    rw [hstep]
    exact ih _ (step_ownSafe e net h)

/-- C10.  `DHCPServer.__init__` leaves the own address of the server unavailable
in its pool (withdrawing it when the pool contains it), and for every
coordinator state built from freshly constructed subnet servers and every
sequence of DISCOVER/REQUEST/RELEASE/sweep events, no server ever has its
own address in its offers map, in its leases map, or available in its
pool. -/
theorem c10_own_address_never_allocated (net0 : NetState) (es : List NetEvent)
    (h0 : ∀ sid srv, getSub net0 sid = some srv →
      ∃ ip pl, srv = DHCPServer.init ip pl) :
    (∀ ip pl, (DHCPServer.init ip pl).pool.contains ip = false) ∧
    OwnSafe (run es net0) := by
  constructor
  · intro ip pl
    have h2 := (DHCPServer_init_srvSafe ip pl).2.2
    rwa [DHCPServer_init_ip] at h2
  · apply run_ownSafe
    intro sid srv hs
    obtain ⟨ip, pl, rfl⟩ := h0 sid srv hs
    exact DHCPServer_init_srvSafe ip pl

/-- Witness for C10 on the demo server and a concrete event sequence. -/
theorem c10_witness : OwnSafe (run c10Events demoNet0) := by
  apply (c10_own_address_never_allocated demoNet0 c10Events ?_).2
  intro sid srv hs
  refine ⟨3232235774, demoPool, ?_⟩
  have hs2 : (if 1 = sid then some demoSrv else none) = some srv := hs
  by_cases h1 : 1 = sid
  · rw [if_pos h1] at hs2
    rw [← Option.some.inj hs2]
    rfl
  · rw [if_neg h1] at hs2
    cases hs2
